import Mathlib

/-!
# pgdialect: the PostgreSQL dialect adapter of bun

A shallow embedding of `dialect/pgdialect/dialect.go`.

* Byte buffers (`[]byte`) are lists of byte values; a byte is a natural number
  (the bytes written here are ASCII codes).
* Machine integers are `Nat`/`Int` with explicit wrap-around at the type width.
* `strconv.AppendInt`, `strconv.FormatInt` and `strconv.ParseInt` belong to the Go
  standard library; they are embedded by their documented behaviour.
-/

namespace strconv

/-- The byte of digit value `d`, as in Go's table
`"0123456789abcdefghijklmnopqrstuvwxyz"`. -/
def digitByte (d : Nat) : Nat :=
  if d < 10 then 48 + d else 87 + d

/-- The digit loop of `formatBits`: the digits of `u` in `base` are written in front of
`acc`, least significant first, as long as `u >= base`; the last digit written is the most
significant one. The first argument bounds the number of iterations; `formatBits` passes
`u` itself, which is always enough since `u / base < u`. -/
def formatLoop (base : Nat) : Nat → Nat → List Nat → List Nat
  | 0, u, acc => digitByte (u % base) :: acc
  | fuel + 1, u, acc =>
    if u ≥ base then formatLoop base fuel (u / base) (digitByte (u % base) :: acc)
    else digitByte u :: acc

/-- Go `formatBits(dst, u, base, neg, true)`: when `neg`, `u` holds a negative `int64`
converted to `uint64` and is negated modulo `2^64`; the digits follow a `-` sign. -/
def formatBits (u : Nat) (base : Nat) (neg : Bool) : List Nat :=
  let u := if neg then (2 ^ 64 - u) % 2 ^ 64 else u
  let ds := formatLoop base u u []
  if neg then 45 :: ds else ds

/-- Go conversion `uint64(i)` of an `int64`. -/
def uint64 (i : Int) : Nat := (i % 2 ^ 64).toNat

/-- Go `strconv.FormatInt(i, base)`. -/
def FormatInt (i : Int) (base : Nat) : List Nat :=
  formatBits (uint64 i) base (decide (i < 0))

/-- Go `strconv.AppendInt(dst, i, base)`: appends the string form of `i`, as generated by
`FormatInt`, to `dst`. -/
def AppendInt (dst : List Nat) (i : Int) (base : Nat) : List Nat :=
  dst ++ FormatInt i base

/-- The value of a digit byte in `ParseUint`: `0-9`, `a-z`, `A-Z`; `none` for any other
byte and for a digit that is not below `base`. -/
def digitVal (base : Nat) (c : Nat) : Option Nat :=
  let d : Option Nat :=
    if 48 ≤ c ∧ c ≤ 57 then some (c - 48)
    else if 97 ≤ c ∧ c ≤ 122 then some (c - 97 + 10)
    else if 65 ≤ c ∧ c ≤ 90 then some (c - 65 + 10)
    else none
  match d with
  | some v => if v < base then some v else none
  | none => none

/-- The accumulation loop of `ParseUint`: `n = n * base + digit` for each byte. -/
def parseLoop (base : Nat) : List Nat → Nat → Option Nat
  | [], n => some n
  | c :: cs, n =>
    match digitVal base c with
    | some v => parseLoop base cs (n * base + v)
    | none => none

/-- Go `strconv.ParseUint(s, base, bitSize)` for an explicit base: `none` stands for an
error (empty text, a byte that is no digit, a value above `2^bitSize - 1`). -/
def ParseUint (s : List Nat) (base : Nat) (bitSize : Nat) : Option Nat :=
  match s with
  | [] => none
  | _ :: _ =>
    match parseLoop base s 0 with
    | some n => if n ≤ 2 ^ bitSize - 1 then some n else none
    | none => none

/-- Go `strconv.ParseInt(s, base, bitSize)`: an optional sign, then `ParseUint`, then the
range check against `cutoff = 2^(bitSize-1)`. `none` stands for an error. -/
def ParseInt (s : List Nat) (base : Nat) (bitSize : Nat) : Option Int :=
  match s with
  | [] => none
  | c :: cs =>
    let neg := decide (c = 45)
    let body := if c = 43 ∨ c = 45 then cs else s
    match ParseUint body base bitSize with
    | none => none
    | some un =>
      let cutoff := 2 ^ (bitSize - 1)
      if ¬ neg ∧ un ≥ cutoff then none
      else if neg ∧ un > cutoff then none
      else some (if neg then - (un : Int) else (un : Int))

end strconv

namespace pgdialect

/-- Go conversion `int32(n)` of a `uint32`: the same 32 bits read as two's complement. -/
def int32 (n : Nat) : Int :=
  if n % 2 ^ 32 < 2 ^ 31 then ((n % 2 ^ 32 : Nat) : Int) else ((n % 2 ^ 32 : Nat) : Int) - 2 ^ 32

/-- Go conversion `int64(x)`: the value wrapped into `[-2^63, 2^63)`; on an `int32` it is
sign extension, on a `uint64` the same 64 bits read as two's complement. -/
def int64 (i : Int) : Int :=
  (i + 2 ^ 63) % 2 ^ 64 - 2 ^ 63

/-- Go `strings.HasSuffix(s, suffix)`. -/
def strings.HasSuffix (s suffix : String) : Bool :=
  suffix.data.isSuffixOf s.data

/-- Modelled from the spec: the SQL-type-name vocabulary of package `dialect/sqltype`, which
is not among the sources ("a fixed SQL-type-name vocabulary"); the small, regular and big
integer types and the key-value map type of the engine. -/
def sqltype.SmallInt : String := "SMALLINT"

/-- Modelled from the spec: see `sqltype.SmallInt`. -/
def sqltype.Integer : String := "INTEGER"

/-- Modelled from the spec: see `sqltype.SmallInt`. -/
def sqltype.BigInt : String := "BIGINT"

/-- Modelled from the spec: see `sqltype.SmallInt`. -/
def sqltype.HSTORE : String := "HSTORE"

/-- Modelled from the spec: the constants `pgTypeSmallSerial`, `pgTypeSerial` and
`pgTypeBigSerial` of `pgdialect/sqltype.go`, which is not among the sources: "the engine's
auto-incrementing counter type corresponding to the discovered integer width
(small/regular/big)". -/
def pgTypeSmallSerial : String := "SMALLSERIAL"

/-- Modelled from the spec: see `pgTypeSmallSerial`. -/
def pgTypeSerial : String := "SERIAL"

/-- Modelled from the spec: see `pgTypeSmallSerial`. -/
def pgTypeBigSerial : String := "BIGSERIAL"

/-- A host-language runtime type (Go `reflect.Type`), by its shape. -/
inductive reflect.rtype where
  | named (name : String)
  | ptr (elem : reflect.rtype)
  | slice (elem : reflect.rtype)
  | map (key elem : reflect.rtype)
  deriving DecidableEq, Repr

/-- Go `reflect.StructField`, with the attributes the adapter reads. -/
structure StructField where
  Name : String
  Typ : reflect.rtype
  deriving DecidableEq, Repr

/-- Modelled from the spec: the parsed struct tag (`tagparser.Tag`, not among the sources):
a name and a map from option names to their values ("tag options (e.g., "array")"). -/
structure Tag where
  Name : String
  Options : List (String × List String)
  deriving DecidableEq, Repr

/-- Modelled from the spec: `Tag.HasOption(name)`, whether the option map has the key. -/
def Tag.HasOption (t : Tag) (name : String) : Bool :=
  t.Options.any (fun o => o.1 == name)

/-- A value of Go type `schema.AppenderFunc`. A function value is represented by the
expression that produced it: `given k` is a function the ORM installed before the adapter ran,
`arrayAppender typ` and `hstoreAppender typ` are the results of `d.arrayAppender(typ)` and
`d.hstoreAppender(typ)` (`array.go` and `hstore.go` are not among the sources). -/
inductive AppenderFunc where
  | given (k : Nat)
  | arrayAppender (typ : reflect.rtype)
  | hstoreAppender (typ : reflect.rtype)
  deriving DecidableEq, Repr

/-- A value of Go type `schema.ScannerFunc`, represented like `AppenderFunc`: `arrayScanner typ`
and `hstoreScanner typ` are the results of `arrayScanner(typ)` and `hstoreScanner(typ)`. -/
inductive ScannerFunc where
  | given (k : Nat)
  | arrayScanner (typ : reflect.rtype)
  | hstoreScanner (typ : reflect.rtype)
  deriving DecidableEq, Repr

/-- The field descriptor `schema.Field`, with the attributes `dialect.go` reads or writes. -/
structure Field where
  StructField : StructField
  Tag : Tag
  UserSQLType : String
  DiscoveredSQLType : String
  CreateTableSQLType : String
  AutoIncrement : Bool
  Identity : Bool
  Append : AppenderFunc
  Scan : ScannerFunc
  deriving DecidableEq, Repr

/-- Modelled from the spec: `fieldSQLType` (`pgdialect/sqltype.go`, not among the sources):
"Compute discoveredSQLType from the field's declared type and tag hints using a fixed
type-mapping table (host runtime type → SQL type name), with the user-specified SQL type
(if present) taking precedence over inference." The table is the parameter `typeMapping`. -/
def fieldSQLType (typeMapping : Tag → reflect.rtype → String) (field : Field) : String :=
  if field.UserSQLType ≠ "" then field.UserSQLType
  else typeMapping field.Tag field.StructField.Typ

/-- Go `func (d *Dialect) onField(field *schema.Field)`: the descriptor after the call. The
function `fieldSQLType` of the package is the first parameter. -/
def onField (fieldSQLType : Field → String) (field : Field) : Field :=
  let field := { field with DiscoveredSQLType := fieldSQLType field }
  let field :=
    if field.AutoIncrement && !field.Identity then
      if field.DiscoveredSQLType = sqltype.SmallInt then
        { field with CreateTableSQLType := pgTypeSmallSerial }
      else if field.DiscoveredSQLType = sqltype.Integer then
        { field with CreateTableSQLType := pgTypeSerial }
      else if field.DiscoveredSQLType = sqltype.BigInt then
        { field with CreateTableSQLType := pgTypeBigSerial }
      else field
    else field
  let field :=
    if field.Tag.HasOption "array" || strings.HasSuffix field.UserSQLType "[]" then
      { field with
        Append := AppenderFunc.arrayAppender field.StructField.Typ
        Scan := ScannerFunc.arrayScanner field.StructField.Typ }
    else field
  let field :=
    if field.DiscoveredSQLType = sqltype.HSTORE then
      { field with
        Append := AppenderFunc.hstoreAppender field.StructField.Typ
        Scan := ScannerFunc.hstoreScanner field.StructField.Typ }
    else field
  field

/-- The field descriptors in memory: `*schema.Field` pointers are addresses. -/
abbrev Heap := Nat → Field

/-- The assignment through a pointer: the descriptor at `p` becomes `f`. -/
def Heap.set (h : Heap) (p : Nat) (f : Field) : Heap :=
  fun q => if q = p then f else h q

/-- The table `schema.Table`: `FieldMap map[string]*Field`, as its entries in the order the
`range` loop visits them (Go leaves that order unspecified). -/
structure Table where
  FieldMap : List (String × Nat)
  deriving DecidableEq, Repr

/-- Go `func (d *Dialect) OnTable(table *schema.Table)`: the memory after the loop. -/
def OnTable (fieldSQLType : Field → String) (table : Table) (heap : Heap) : Heap :=
  table.FieldMap.foldl (fun h e => h.set e.2 (onField fieldSQLType (h e.2))) heap

/-- Modelled from the spec: the feature-flag vocabulary of package `dialect/feature`, which is
not among the sources ("a fixed feature-flag vocabulary"): the value of each capability the
adapter names, a `uint64` bitset. -/
structure feature.Vocabulary where
  CTE : Nat
  WithValues : Nat
  Returning : Nat
  InsertReturning : Nat
  DefaultPlaceholder : Nat
  DoubleColonCast : Nat
  InsertTableAlias : Nat
  UpdateTableAlias : Nat
  DeleteTableAlias : Nat
  TableCascade : Nat
  TableIdentity : Nat
  TableTruncate : Nat
  TableNotExists : Nat
  InsertOnConflict : Nat
  SelectExists : Nat
  GeneratedIdentity : Nat
  CompositeIn : Nat
  deriving DecidableEq, Repr

/-- The registry `*schema.Tables` made by `schema.NewTables(d)`. -/
inductive Tables where
  | NewTables
  deriving DecidableEq, Repr

/-- The adapter `type Dialect struct`; `tables` is a pointer, `none` when nil. -/
structure Dialect where
  tables : Option Tables
  features : Nat
  prepared : Bool
  deriving DecidableEq, Repr

/-- Go `type optionFunc func(d *Dialect)`, the one implementation of interface `Option`: the
adapter after the function ran on it. -/
abbrev optionFunc := Dialect → Dialect

/-- Go `func (f optionFunc) apply(d *Dialect)`. -/
def optionFunc.apply (f : optionFunc) (d : Dialect) : Dialect := f d

/-- Go `func WithPrepared(prepared bool) Option`. -/
def WithPrepared (prepared : Bool) : optionFunc :=
  fun d => { d with prepared := prepared }

/-- Go `func New(opts ...Option) *Dialect`. -/
def New (feature : feature.Vocabulary) (opts : List optionFunc) : Dialect :=
  let d : Dialect := { tables := none, features := 0, prepared := false }
  let d := { d with tables := some Tables.NewTables }
  let d := { d with features :=
    feature.CTE |||
    feature.WithValues |||
    feature.Returning |||
    feature.InsertReturning |||
    feature.DefaultPlaceholder |||
    feature.DoubleColonCast |||
    feature.InsertTableAlias |||
    feature.UpdateTableAlias |||
    feature.DeleteTableAlias |||
    feature.TableCascade |||
    feature.TableIdentity |||
    feature.TableTruncate |||
    feature.TableNotExists |||
    feature.InsertOnConflict |||
    feature.SelectExists |||
    feature.GeneratedIdentity |||
    feature.CompositeIn }
  opts.foldl (fun d opt => opt.apply d) d

/-- Go `func (d *Dialect) Features() feature.Feature`. -/
def Features (d : Dialect) : Nat := d.features

/-- Go `func (d *Dialect) Prepared() bool`. -/
def Prepared (d : Dialect) : Bool := d.prepared

/-- Go `func (d *Dialect) IdentQuote() byte`. -/
def IdentQuote (_d : Dialect) : Nat := 34

/-- Go `func (d *Dialect) AppendUint32(b []byte, n uint32) []byte`. -/
def AppendUint32 (b : List Nat) (n : Nat) : List Nat :=
  strconv.AppendInt b (int64 (int32 n)) 10

/-- Go `func (d *Dialect) AppendUint64(b []byte, n uint64) []byte`. -/
def AppendUint64 (b : List Nat) (n : Nat) : List Nat :=
  strconv.AppendInt b (int64 (n : Int)) 10

/-- Go `func (d *Dialect) AppendPlaceholder(b []byte, i int) []byte`. -/
def AppendPlaceholder (b : List Nat) (i : Int) : List Nat :=
  let b := b ++ [36]
  let b := b ++ strconv.FormatInt (int64 i) 10
  b

/-- The field is declared an array: by its tag or by the suffix of its user type. -/
def declaredArray (f : Field) : Bool :=
  f.Tag.HasOption "array" || strings.HasSuffix f.UserSQLType "[]"

/-- The type mapping reads only attributes `onField` does not write. -/
def ReadsOnlyInputs (fieldSQLType : Field → String) : Prop :=
  ∀ (f : Field) (d c : String) (a : AppenderFunc) (s : ScannerFunc),
    fieldSQLType { f with DiscoveredSQLType := d, CreateTableSQLType := c,
                          Append := a, Scan := s } = fieldSQLType f

/-- The seventeen capabilities the spec lists for the adapter, in the order of the list. -/
def supportedFeatures (feature : feature.Vocabulary) : List Nat :=
  [feature.CTE, feature.WithValues, feature.Returning, feature.InsertReturning,
   feature.DefaultPlaceholder, feature.DoubleColonCast, feature.InsertTableAlias,
   feature.UpdateTableAlias, feature.DeleteTableAlias, feature.TableCascade,
   feature.TableIdentity, feature.TableTruncate, feature.TableNotExists,
   feature.InsertOnConflict, feature.SelectExists, feature.GeneratedIdentity,
   feature.CompositeIn]

/-- A field tagged `bun:"type:HSTORE,array"` on a `map[string]string`, before the adapter
ran. -/
def hstoreArrayField : Field :=
  { StructField := { Name := "Attrs",
                     Typ := reflect.rtype.map (reflect.rtype.named "string")
                              (reflect.rtype.named "string") }
    Tag := { Name := "attrs", Options := [("type", ["HSTORE"]), ("array", [])] }
    UserSQLType := "HSTORE"
    DiscoveredSQLType := "VARCHAR"
    CreateTableSQLType := ""
    AutoIncrement := false
    Identity := false
    Append := AppenderFunc.given 0
    Scan := ScannerFunc.given 0 }

/-- An auto-increment `int64` key without native identity, before the adapter ran. -/
def serialField : Field :=
  { StructField := { Name := "ID", Typ := reflect.rtype.named "int64" }
    Tag := { Name := "id", Options := [("pk", []), ("autoincrement", [])] }
    UserSQLType := ""
    DiscoveredSQLType := "BIGINT"
    CreateTableSQLType := ""
    AutoIncrement := true
    Identity := false
    Append := AppenderFunc.given 1
    Scan := ScannerFunc.given 1 }

/-- A `[]string` field tagged `bun:",array"`, before the adapter ran. -/
def arrayField : Field :=
  { StructField := { Name := "Tags", Typ := reflect.rtype.slice (reflect.rtype.named "string") }
    Tag := { Name := "tags", Options := [("array", [])] }
    UserSQLType := ""
    DiscoveredSQLType := "VARCHAR"
    CreateTableSQLType := ""
    AutoIncrement := false
    Identity := false
    Append := AppenderFunc.given 2
    Scan := ScannerFunc.given 2 }

/-- A type-mapping table for the examples: 64-bit integers are `BIGINT`, a slice under the
`array` option is `VARCHAR[]`, anything else is `VARCHAR`. -/
def exampleMapping (tag : Tag) (typ : reflect.rtype) : String :=
  match typ with
  | reflect.rtype.named "int64" => "BIGINT"
  | reflect.rtype.slice _ => if tag.HasOption "array" then "VARCHAR[]" else "JSONB"
  | _ => "VARCHAR"

/-- A type mapping that reads `DiscoveredSQLType`, as the signature of `fieldSQLType`
allows (it receives the whole descriptor): the user type comes first; a field the ORM
discovered as `BLOB` is `BYTEA`; any other field has the type of its host type, `INET` for
`net.IP` and `VARCHAR` otherwise. -/
def discoveredReadingMapping (field : Field) : String :=
  if field.UserSQLType ≠ "" then field.UserSQLType
  else if field.DiscoveredSQLType = "BLOB" then "BYTEA"
  else
    match field.StructField.Typ with
    | reflect.rtype.named "net.IP" => "INET"
    | _ => "VARCHAR"

/-- A `net.IP` field (a byte slice, which the ORM discovers as `BLOB`), before the adapter
ran. -/
def ipField : Field :=
  { StructField := { Name := "IP", Typ := reflect.rtype.named "net.IP" }
    Tag := { Name := "ip", Options := [("alt", ["ip_alias"])] }
    UserSQLType := ""
    DiscoveredSQLType := "BLOB"
    CreateTableSQLType := ""
    AutoIncrement := false
    Identity := false
    Append := AppenderFunc.given 3
    Scan := ScannerFunc.given 3 }

/-- A table whose `FieldMap` has two names for the descriptor at address 0. -/
def aliasTable : Table :=
  { FieldMap := [("ip", 0), ("ip_alias", 0)] }

/-- A memory that holds `ipField` at address 0 and the big-serial key elsewhere. -/
def aliasHeap : Heap :=
  fun p => if p = 0 then ipField else serialField

/-- A call of one of the adapter's methods after construction. -/
inductive Call where
  | Init
  | Name
  | Features
  | Tables
  | OnTable (table : Table)
  | Prepared
  | IdentQuote
  | AppendUint32 (b : List Nat) (n : Nat)
  | AppendUint64 (b : List Nat) (n : Nat)
  | AppendPlaceholder (b : List Nat) (i : Int)

/-- The adapter and the field descriptors it can reach. -/
structure World where
  dialect : Dialect
  heap : Heap

/-- The state after one method call on the adapter `w.dialect`. Every method has the receiver
`d *Dialect`; none of the bodies assigns to a field of `d`, and only `OnTable` writes through
another pointer. -/
def World.call (fieldSQLType : Field → String) (w : World) : Call → World
  | Call.OnTable table => { w with heap := OnTable fieldSQLType table w.heap }
  | Call.Init => w
  | Call.Name => w
  | Call.Features => w
  | Call.Tables => w
  | Call.Prepared => w
  | Call.IdentQuote => w
  | Call.AppendUint32 _ _ => w
  | Call.AppendUint64 _ _ => w
  | Call.AppendPlaceholder _ _ => w

/-- The state after a sequence of method calls. -/
def World.run (fieldSQLType : Field → String) (w : World) (calls : List Call) : World :=
  calls.foldl (World.call fieldSQLType) w

end pgdialect


/-! ## Decimal formatting and parsing -/

namespace strconv

theorem digitByte_lt {d : Nat} (h : d < 10) : digitByte d = 48 + d := by
  simp [digitByte, h]

theorem digitVal_digitByte {d : Nat} (h : d < 10) : digitVal 10 (digitByte d) = some d := by
  have h1 : 48 + d ≤ 57 := by omega
  simp [digitByte_lt h, digitVal, h1, h]

/-- Parsing the text written by the digit loop in front of `acc` continues on `acc` with
the value `u`. -/
theorem parseLoop_formatLoop (fuel : Nat) : ∀ (u : Nat) (acc : List Nat), u ≤ fuel →
    parseLoop 10 (formatLoop 10 fuel u acc) 0 = parseLoop 10 acc u := by
  induction fuel with
  | zero =>
    intro u acc hu
    have h0 : u = 0 := by omega
    subst h0
    simp [formatLoop, parseLoop, digitVal_digitByte]
  | succ fuel ih =>
    intro u acc hu
    by_cases hge : u ≥ 10
    · have hdiv : u / 10 ≤ fuel := by omega
      have hmod : u % 10 < 10 := Nat.mod_lt _ (by decide)
      have hval : u / 10 * 10 + u % 10 = u := by omega
      simp only [formatLoop, hge, if_true]
      rw [ih (u / 10) _ hdiv]
      simp [parseLoop, digitVal_digitByte hmod, hval]
    · have hlt : u < 10 := by omega
      simp [formatLoop, hge, parseLoop, digitVal_digitByte hlt]

/-- The digit loop writes the decimal digits of `u`, most significant first. -/
theorem formatLoop_eq_digits (fuel : Nat) : ∀ (u : Nat) (acc : List Nat), 1 ≤ u → u ≤ fuel →
    formatLoop 10 fuel u acc = ((Nat.digits 10 u).reverse.map (fun d => 48 + d)) ++ acc := by
  induction fuel with
  | zero => intro u acc h1 hu; omega
  | succ fuel ih =>
    intro u acc h1 hu
    by_cases hge : u ≥ 10
    · have hdiv : u / 10 ≤ fuel := by omega
      have hdiv1 : 1 ≤ u / 10 := by omega
      have hmod : u % 10 < 10 := Nat.mod_lt _ (by decide)
      simp only [formatLoop, hge, if_true]
      rw [ih (u / 10) _ hdiv1 hdiv, Nat.digits_def' (by decide : 1 < 10) (by omega : 0 < u)]
      simp [digitByte_lt hmod]
    · have hlt : u < 10 := by omega
      have hne : u ≠ 0 := by omega
      simp [formatLoop, hge, digitByte_lt hlt, Nat.digits_of_lt 10 u hne hlt]

/-- The first byte the digit loop writes is a decimal digit. -/
theorem formatLoop_head (fuel : Nat) : ∀ (u : Nat) (acc : List Nat),
    ∃ d t, d < 10 ∧ formatLoop 10 fuel u acc = (48 + d) :: t := by
  induction fuel with
  | zero =>
    intro u acc
    exact ⟨u % 10, acc, Nat.mod_lt _ (by decide), by
      simp [formatLoop, digitByte_lt (Nat.mod_lt u (by decide : 10 > 0))]⟩
  | succ fuel ih =>
    intro u acc
    by_cases hge : u ≥ 10
    · simp only [formatLoop, hge, if_true]
      exact ih _ _
    · have hlt : u < 10 := by omega
      exact ⟨u, acc, hlt, by simp [formatLoop, hge, digitByte_lt hlt]⟩

theorem two_pow_pred_le (w : Nat) (hw : 1 ≤ w) : 2 ^ (w - 1) ≤ 2 ^ w - 1 := by
  obtain ⟨k, rfl⟩ : ∃ k, w = k + 1 := ⟨w - 1, by omega⟩
  have : 0 < 2 ^ k := Nat.pow_pos (by decide)
  simp only [Nat.add_sub_cancel, pow_succ]
  omega

theorem ParseUint_formatLoop (u w : Nat) (h : u ≤ 2 ^ w - 1) :
    ParseUint (formatLoop 10 u u []) 10 w = some u := by
  obtain ⟨d, t, hd, ht⟩ := formatLoop_head u u []
  have hp := parseLoop_formatLoop u u [] (Nat.le_refl u)
  rw [ht] at hp
  rw [ht]
  have hq : parseLoop 10 [] u = some u := rfl
  simp only [ParseUint, hp, hq, h, if_true]

/-- A value below the cutoff, written without sign, parses to itself. -/
theorem ParseInt_formatLoop (u w : Nat) (hw : 1 ≤ w) (h : u < 2 ^ (w - 1)) :
    ParseInt (formatLoop 10 u u []) 10 w = some (u : Int) := by
  have hle : u ≤ 2 ^ w - 1 := by have := two_pow_pred_le w hw; omega
  have hp := ParseUint_formatLoop u w hle
  obtain ⟨d, t, hd, ht⟩ := formatLoop_head u u []
  rw [ht] at hp ⊢
  have h43 : ¬ (48 + d = 43) := by omega
  have h45 : ¬ (48 + d = 45) := by omega
  have hc : ¬ (u ≥ 2 ^ (w - 1)) := by omega
  simp [ParseInt, h43, h45, hp, hc]

/-- A value up to the cutoff, written after a minus sign, parses to its negation. -/
theorem ParseInt_neg_formatLoop (u w : Nat) (hw : 1 ≤ w) (h : u ≤ 2 ^ (w - 1)) :
    ParseInt (45 :: formatLoop 10 u u []) 10 w = some (-(u : Int)) := by
  have hle : u ≤ 2 ^ w - 1 := by have := two_pow_pred_le w hw; omega
  have hp := ParseUint_formatLoop u w hle
  have hc : ¬ (u > 2 ^ (w - 1)) := by omega
  simp [ParseInt, hp, hc]

theorem FormatInt_ofNat (u : Nat) (h : u < 2 ^ 63) :
    FormatInt (u : Int) 10 = formatLoop 10 u u [] := by
  have hu : ((u : Int) % 2 ^ 64).toNat = u := by omega
  have hneg : ¬ ((u : Int) < 0) := by omega
  simp only [FormatInt, formatBits, uint64, hu, hneg, decide_False, if_false, Bool.false_eq_true]

theorem FormatInt_neg (u : Nat) (h1 : 1 ≤ u) (h : u ≤ 2 ^ 63) :
    FormatInt (-(u : Int)) 10 = 45 :: formatLoop 10 u u [] := by
  have hu : ((-(u : Int)) % 2 ^ 64).toNat = 2 ^ 64 - u := by omega
  have hneg : (-(u : Int)) < 0 := by omega
  have hv : (2 ^ 64 - (2 ^ 64 - u)) % 2 ^ 64 = u := by omega
  simp only [FormatInt, formatBits, uint64, hu, hneg, decide_True, if_true, hv]

end strconv

namespace pgdialect

/-- A signed value of `w` bits (`w` is 32 or 64), formatted in base 10 and parsed back as a
signed integer of `w` bits, is itself. -/
theorem ParseInt_FormatInt (w : Nat) (hw : w = 32 ∨ w = 64) (i : Int)
    (lo : -(2 : Int) ^ (w - 1) ≤ i) (hi : i < (2 : Int) ^ (w - 1)) :
    strconv.ParseInt (strconv.FormatInt i 10) 10 w = some i := by
  rcases hw with rfl | rfl
  all_goals
    norm_num at lo hi
    by_cases hneg : i < 0
    · obtain ⟨u, hu⟩ : ∃ u : Nat, i = -(u : Int) := ⟨(-i).toNat, by omega⟩
      subst hu
      rw [strconv.FormatInt_neg u (by omega) (by omega)]
      exact strconv.ParseInt_neg_formatLoop u _ (by norm_num) (by norm_num; omega)
    · obtain ⟨u, hu⟩ : ∃ u : Nat, i = (u : Int) := ⟨i.toNat, by omega⟩
      subst hu
      rw [strconv.FormatInt_ofNat u (by omega)]
      exact strconv.ParseInt_formatLoop u _ (by norm_num) (by norm_num; omega)

/-- C1: for every buffer `b`, every `uint32` value `n` and every `uint64` value `m`,
`AppendUint32 b n` is `b` followed by a decimal literal that parses as a signed 32-bit
integer whose bits, read as unsigned 32-bit, are `n`, and `AppendUint64 b m` is `b` followed
by a decimal literal that parses as a signed 64-bit integer whose bits, read as unsigned
64-bit, are `m`; the parsed value is negative exactly for `n >= 2^31` and `m >= 2^63`. -/
theorem AppendUint_roundtrip (b : List Nat) (n m : Nat) (hn : n < 2 ^ 32) (hm : m < 2 ^ 64) :
    (∃ lit v, AppendUint32 b n = b ++ lit ∧ strconv.ParseInt lit 10 32 = some v ∧
        v % 2 ^ 32 = (n : Int) ∧ (v < 0 ↔ 2 ^ 31 ≤ n)) ∧
    (∃ lit v, AppendUint64 b m = b ++ lit ∧ strconv.ParseInt lit 10 64 = some v ∧
        v % 2 ^ 64 = (m : Int) ∧ (v < 0 ↔ 2 ^ 63 ≤ m)) := by
  constructor
  · refine ⟨strconv.FormatInt (int64 (int32 n)) 10, int64 (int32 n), rfl, ?_, ?_, ?_⟩
    · apply ParseInt_FormatInt 32 (Or.inl rfl)
      · simp only [int64, int32]; split <;> omega
      · simp only [int64, int32]; split <;> omega
    · simp only [int64, int32]; split <;> omega
    · simp only [int64, int32]; split <;> omega
  · refine ⟨strconv.FormatInt (int64 (m : Int)) 10, int64 (m : Int), rfl, ?_, ?_, ?_⟩
    · apply ParseInt_FormatInt 64 (Or.inr rfl)
      · simp only [int64]; omega
      · simp only [int64]; omega
    · simp only [int64]; omega
    · simp only [int64]; omega

/-- The round trip at the largest values, whose literals are `-1`. -/
theorem AppendUint_roundtrip_witness :
    (∃ lit v, AppendUint32 [39] 4294967295 = [39] ++ lit ∧
        strconv.ParseInt lit 10 32 = some v ∧
        v % 2 ^ 32 = ((4294967295 : Nat) : Int) ∧ (v < 0 ↔ 2 ^ 31 ≤ 4294967295)) ∧
    (∃ lit v, AppendUint64 [39] 18446744073709551615 = [39] ++ lit ∧
        strconv.ParseInt lit 10 64 = some v ∧
        v % 2 ^ 64 = ((18446744073709551615 : Nat) : Int) ∧
        (v < 0 ↔ 2 ^ 63 ≤ 18446744073709551615)) :=
  AppendUint_roundtrip [39] 4294967295 18446744073709551615 (by decide) (by decide)

/-- C2: for every buffer `b` and every index `i >= 1` (an `int`), `AppendPlaceholder b i` is
`b`, the byte `$` and the decimal digits of `i`, most significant first: every byte after `$`
is a digit `0`-`9`, the first one is not `0`, and there is no sign. The text appended is the
same for every buffer, and on the empty buffer with index 1 the result is `$1`. -/
theorem AppendPlaceholder_spec (b : List Nat) (i : Int) (h1 : 1 ≤ i) (h2 : i < 2 ^ 63) :
    AppendPlaceholder b i
        = b ++ 36 :: (Nat.digits 10 i.toNat).reverse.map (fun d => 48 + d) ∧
    (∀ c ∈ (Nat.digits 10 i.toNat).reverse.map (fun d => 48 + d), 48 ≤ c ∧ c ≤ 57) ∧
    ((Nat.digits 10 i.toNat).reverse.map (fun d => 48 + d)).head? ≠ some 48 ∧
    ((Nat.digits 10 i.toNat).reverse.map (fun d => 48 + d)).head? ≠ none ∧
    AppendPlaceholder b i = b ++ AppendPlaceholder [] i ∧
    AppendPlaceholder [] 1 = [36, 49] := by
  obtain ⟨u, hu⟩ : ∃ u : Nat, i = (u : Int) := ⟨i.toNat, by omega⟩
  subst hu
  have hu1 : 1 ≤ u := by omega
  have hi : int64 (u : Int) = (u : Int) := by simp only [int64]; omega
  have hfmt : strconv.FormatInt (u : Int) 10
      = (Nat.digits 10 u).reverse.map (fun d => 48 + d) := by
    rw [strconv.FormatInt_ofNat u (by omega),
      strconv.formatLoop_eq_digits u u [] hu1 (Nat.le_refl u)]
    simp
  have happ : ∀ b : List Nat, AppendPlaceholder b (u : Int)
      = b ++ 36 :: (Nat.digits 10 u).reverse.map (fun d => 48 + d) := by
    intro b
    simp [AppendPlaceholder, hi, hfmt]
  simp only [Int.toNat_ofNat]
  refine ⟨happ b, ?_, ?_, ?_, ?_, by decide⟩
  · intro c hc
    simp only [List.mem_map, List.mem_reverse] at hc
    obtain ⟨d, hd, rfl⟩ := hc
    have := Nat.digits_lt_base (by decide : 1 < 10) hd
    omega
  · have hne : Nat.digits 10 u ≠ [] := Nat.digits_ne_nil_iff_ne_zero.mpr (by omega)
    have hlast := Nat.getLast_digit_ne_zero 10 (m := u) (by omega)
    rw [List.head?_map, List.head?_reverse, List.getLast?_eq_getLast _ hne]
    simp only [Option.map_some', ne_eq, Option.some.injEq]
    omega
  · have hne : Nat.digits 10 u ≠ [] := Nat.digits_ne_nil_iff_ne_zero.mpr (by omega)
    rw [List.head?_map, List.head?_reverse, List.getLast?_eq_getLast _ hne]
    simp
  · rw [happ b, happ []]
    simp

/-- The placeholder of index 12 on a buffer that already ends in a placeholder. -/
theorem AppendPlaceholder_spec_witness :
    AppendPlaceholder [36, 49] 12
        = [36, 49] ++ 36 :: (Nat.digits 10 (12 : Int).toNat).reverse.map (fun d => 48 + d) ∧
    (∀ c ∈ (Nat.digits 10 (12 : Int).toNat).reverse.map (fun d => 48 + d), 48 ≤ c ∧ c ≤ 57) ∧
    ((Nat.digits 10 (12 : Int).toNat).reverse.map (fun d => 48 + d)).head? ≠ some 48 ∧
    ((Nat.digits 10 (12 : Int).toNat).reverse.map (fun d => 48 + d)).head? ≠ none ∧
    AppendPlaceholder [36, 49] 12 = [36, 49] ++ AppendPlaceholder [] 12 ∧
    AppendPlaceholder [] 1 = [36, 49] :=
  AppendPlaceholder_spec [36, 49] 12 (by decide) (by decide)

end pgdialect

/-! ## The field-resolution rule -/

namespace pgdialect

/-- The four attributes the rule writes, as functions of the attributes it reads and of
the discovered type. -/
theorem onField_eq (fst : Field → String) (f : Field) :
    onField fst f = { f with
      DiscoveredSQLType := fst f
      CreateTableSQLType :=
        if f.AutoIncrement = true ∧ f.Identity = false then
          if fst f = sqltype.SmallInt then pgTypeSmallSerial
          else if fst f = sqltype.Integer then pgTypeSerial
          else if fst f = sqltype.BigInt then pgTypeBigSerial
          else f.CreateTableSQLType
        else f.CreateTableSQLType
      Append :=
        if fst f = sqltype.HSTORE then AppenderFunc.hstoreAppender f.StructField.Typ
        else if declaredArray f = true then AppenderFunc.arrayAppender f.StructField.Typ
        else f.Append
      Scan :=
        if fst f = sqltype.HSTORE then ScannerFunc.hstoreScanner f.StructField.Typ
        else if declaredArray f = true then ScannerFunc.arrayScanner f.StructField.Typ
        else f.Scan } := by
  simp only [onField, declaredArray]
  generalize fst f = d
  obtain ⟨p1, e1⟩ : ∃ p : Bool, (d = sqltype.SmallInt) = (p = true) :=
    ⟨decide (d = sqltype.SmallInt), by simp⟩
  obtain ⟨p2, e2⟩ : ∃ p : Bool, (d = sqltype.Integer) = (p = true) :=
    ⟨decide (d = sqltype.Integer), by simp⟩
  obtain ⟨p3, e3⟩ : ∃ p : Bool, (d = sqltype.BigInt) = (p = true) :=
    ⟨decide (d = sqltype.BigInt), by simp⟩
  obtain ⟨p4, e4⟩ : ∃ p : Bool, (d = sqltype.HSTORE) = (p = true) :=
    ⟨decide (d = sqltype.HSTORE), by simp⟩
  obtain ⟨arr, hD⟩ :
      ∃ arr, (f.Tag.HasOption "array" || strings.HasSuffix f.UserSQLType "[]") = arr := ⟨_, rfl⟩
  simp only [e1, e2, e3, e4]
  cases hA : f.AutoIncrement <;> cases hI : f.Identity <;> cases p1 <;> cases p2 <;>
    cases p3 <;> cases p4 <;> cases arr <;>
    simp only [hD, e1, e2, e3, e4, ite_self, true_and, Bool.true_eq_false, Bool.and_true, Bool.and_false, Bool.and_self, Bool.not_true, Bool.not_false,
      Bool.false_eq_true, if_true, if_false, and_self, and_false, false_and, and_true]

theorem onField_DiscoveredSQLType (fst : Field → String) (f : Field) :
    (onField fst f).DiscoveredSQLType = fst f := by
  rw [onField_eq]

theorem fst_onField (fst : Field → String) (h : ReadsOnlyInputs fst) (f : Field) :
    fst (onField fst f) = fst f := by
  rw [onField_eq fst f]
  exact h f _ _ _ _

theorem declaredArray_onField (fst : Field → String) (f : Field) :
    declaredArray (onField fst f) = declaredArray f := by
  rw [onField_eq fst f]
  rfl

/-- Applying the rule twice is applying it once, for a type mapping that reads only the
attributes the rule does not write. -/
theorem onField_onField (fst : Field → String) (h : ReadsOnlyInputs fst) (f : Field) :
    onField fst (onField fst f) = onField fst f := by
  have hd : fst (onField fst f) = fst f := fst_onField fst h f
  have ha : declaredArray (onField fst f) = declaredArray f := declaredArray_onField fst f
  rw [onField_eq fst (onField fst f), hd, ha]
  rw [onField_eq fst f]
  simp only []
  split_ifs <;> rfl

/-- The serial branch, for a field with `AutoIncrement` set and `Identity` unset. -/
theorem serial_branch (fst : Field → String) (g : Field)
    (gA : g.AutoIncrement = true) (gI : g.Identity = false) :
    (fst g = sqltype.SmallInt → (onField fst g).CreateTableSQLType = pgTypeSmallSerial) ∧
    (fst g = sqltype.Integer → (onField fst g).CreateTableSQLType = pgTypeSerial) ∧
    (fst g = sqltype.BigInt → (onField fst g).CreateTableSQLType = pgTypeBigSerial) := by
  have hIS : sqltype.Integer ≠ sqltype.SmallInt := by decide
  have hBS : sqltype.BigInt ≠ sqltype.SmallInt := by decide
  have hBI : sqltype.BigInt ≠ sqltype.Integer := by decide
  rw [onField_eq fst g]
  refine ⟨?_, ?_, ?_⟩ <;> intro hd
  · simp only [gA, gI, hd, and_self, if_true]
  · simp only [gA, gI, hd, and_self, if_true, hIS, if_false]
  · simp only [gA, gI, hd, and_self, if_true, hBS, hBI, if_false]

theorem ReadsOnlyInputs_fieldSQLType (typeMapping : Tag → reflect.rtype → String) :
    ReadsOnlyInputs (fieldSQLType typeMapping) := by
  intro f d c a s
  rfl

end pgdialect

namespace pgdialect

/-- C3: after `onField`, `CreateTableSQLType` is the small-serial, serial or big-serial type
when the field is `AutoIncrement`, is not `Identity`, and its discovered SQL type is
`SMALLINT`, `INTEGER` or `BIGINT` respectively; in every other case (`Identity` set,
`AutoIncrement` unset, or a discovered type that is none of the three) it is what it was
before the call. The discovered SQL type is the result of the type mapping. -/
theorem onField_CreateTableSQLType (fst : Field → String) (f : Field) :
    (onField fst f).DiscoveredSQLType = fst f ∧
    (f.AutoIncrement = true ∧ f.Identity = false ∧
        (onField fst f).DiscoveredSQLType = sqltype.SmallInt →
      (onField fst f).CreateTableSQLType = pgTypeSmallSerial) ∧
    (f.AutoIncrement = true ∧ f.Identity = false ∧
        (onField fst f).DiscoveredSQLType = sqltype.Integer →
      (onField fst f).CreateTableSQLType = pgTypeSerial) ∧
    (f.AutoIncrement = true ∧ f.Identity = false ∧
        (onField fst f).DiscoveredSQLType = sqltype.BigInt →
      (onField fst f).CreateTableSQLType = pgTypeBigSerial) ∧
    (f.Identity = true ∨ f.AutoIncrement = false ∨
        ((onField fst f).DiscoveredSQLType ≠ sqltype.SmallInt ∧
         (onField fst f).DiscoveredSQLType ≠ sqltype.Integer ∧
         (onField fst f).DiscoveredSQLType ≠ sqltype.BigInt) →
      (onField fst f).CreateTableSQLType = f.CreateTableSQLType) := by
  have hIS : sqltype.Integer ≠ sqltype.SmallInt := by decide
  have hBS : sqltype.BigInt ≠ sqltype.SmallInt := by decide
  have hBI : sqltype.BigInt ≠ sqltype.Integer := by decide
  rw [onField_eq fst f]
  refine ⟨rfl, ?_, ?_, ?_, ?_⟩
  · rintro ⟨hA, hI, hd⟩
    simp only at hd ⊢
    simp only [hA, hI, hd, and_self, if_true]
  · rintro ⟨hA, hI, hd⟩
    simp only at hd ⊢
    simp only [hA, hI, hd, and_self, if_true, hIS, if_false]
  · rintro ⟨hA, hI, hd⟩
    simp only at hd ⊢
    simp only [hA, hI, hd, and_self, if_true, hBS, hBI, if_false]
  · rintro (hI | hA | ⟨h1, h2, h3⟩)
    · simp only [hI, Bool.true_eq_false, and_false, if_false]
    · simp only [hA, Bool.false_eq_true, false_and, if_false]
    · simp only at h1 h2 h3 ⊢
      simp only [h1, h2, h3, if_false, ite_self]

/-- C4: for an auto-increment integer field without native identity, after `onField` the
create-table type differs from the discovered SQL type; the discovered SQL type is the base
integer type the type mapping computed and is none of the serial types; and the widths
correspond one to one: small-serial exactly for `SMALLINT`, serial exactly for `INTEGER`,
big-serial exactly for `BIGINT`, so two such fields get the same create-table type exactly
when they have the same discovered type. -/
theorem onField_serial (fst : Field → String) (f : Field)
    (hA : f.AutoIncrement = true) (hI : f.Identity = false)
    (hd : fst f = sqltype.SmallInt ∨ fst f = sqltype.Integer ∨ fst f = sqltype.BigInt) :
    (onField fst f).CreateTableSQLType ≠ (onField fst f).DiscoveredSQLType ∧
    (onField fst f).DiscoveredSQLType = fst f ∧
    (onField fst f).DiscoveredSQLType ∉ [pgTypeSmallSerial, pgTypeSerial, pgTypeBigSerial] ∧
    ((onField fst f).DiscoveredSQLType = sqltype.SmallInt ↔
      (onField fst f).CreateTableSQLType = pgTypeSmallSerial) ∧
    ((onField fst f).DiscoveredSQLType = sqltype.Integer ↔
      (onField fst f).CreateTableSQLType = pgTypeSerial) ∧
    ((onField fst f).DiscoveredSQLType = sqltype.BigInt ↔
      (onField fst f).CreateTableSQLType = pgTypeBigSerial) ∧
    (∀ f2 : Field, f2.AutoIncrement = true → f2.Identity = false →
      (fst f2 = sqltype.SmallInt ∨ fst f2 = sqltype.Integer ∨ fst f2 = sqltype.BigInt) →
      ((onField fst f2).CreateTableSQLType = (onField fst f).CreateTableSQLType ↔
        (onField fst f2).DiscoveredSQLType = (onField fst f).DiscoveredSQLType)) := by
  have key : ∀ g : Field, g.AutoIncrement = true → g.Identity = false →
      (fst g = sqltype.SmallInt ∨ fst g = sqltype.Integer ∨ fst g = sqltype.BigInt) →
      (onField fst g).DiscoveredSQLType = fst g ∧
      ((fst g = sqltype.SmallInt ∧ (onField fst g).CreateTableSQLType = pgTypeSmallSerial) ∨
       (fst g = sqltype.Integer ∧ (onField fst g).CreateTableSQLType = pgTypeSerial) ∨
       (fst g = sqltype.BigInt ∧ (onField fst g).CreateTableSQLType = pgTypeBigSerial)) := by
    intro g gA gI gd
    have h3 := serial_branch fst g gA gI
    refine ⟨onField_DiscoveredSQLType fst g, ?_⟩
    rcases gd with h | h | h
    · exact Or.inl ⟨h, h3.1 h⟩
    · exact Or.inr (Or.inl ⟨h, h3.2.1 h⟩)
    · exact Or.inr (Or.inr ⟨h, h3.2.2 h⟩)
  obtain ⟨e, hf⟩ := key f hA hI hd
  refine ⟨?_, e, ?_, ?_, ?_, ?_, ?_⟩
  · rw [e]; rcases hf with ⟨a, b⟩ | ⟨a, b⟩ | ⟨a, b⟩ <;> rw [a, b] <;> decide
  · rw [e]; rcases hf with ⟨a, _⟩ | ⟨a, _⟩ | ⟨a, _⟩ <;> rw [a] <;> decide
  · rw [e]; rcases hf with ⟨a, b⟩ | ⟨a, b⟩ | ⟨a, b⟩ <;> rw [a, b] <;> decide
  · rw [e]; rcases hf with ⟨a, b⟩ | ⟨a, b⟩ | ⟨a, b⟩ <;> rw [a, b] <;> decide
  · rw [e]; rcases hf with ⟨a, b⟩ | ⟨a, b⟩ | ⟨a, b⟩ <;> rw [a, b] <;> decide
  · intro f2 h2A h2I h2d
    obtain ⟨e2, hf2⟩ := key f2 h2A h2I h2d
    rw [e, e2]
    rcases hf with ⟨a, b⟩ | ⟨a, b⟩ | ⟨a, b⟩ <;>
      rcases hf2 with ⟨a2, b2⟩ | ⟨a2, b2⟩ | ⟨a2, b2⟩ <;>
      rw [a, b, a2, b2] <;> decide

/-- The big-serial key: `BIGINT` is discovered, `BIGSERIAL` is the create-table type. -/
theorem onField_serial_witness :
    (onField (fieldSQLType exampleMapping) serialField).CreateTableSQLType
      ≠ (onField (fieldSQLType exampleMapping) serialField).DiscoveredSQLType ∧
    (onField (fieldSQLType exampleMapping) serialField).DiscoveredSQLType
      = fieldSQLType exampleMapping serialField ∧
    (onField (fieldSQLType exampleMapping) serialField).CreateTableSQLType = "BIGSERIAL" ∧
    (onField (fieldSQLType exampleMapping) serialField).DiscoveredSQLType = "BIGINT" :=
  have h := onField_serial (fieldSQLType exampleMapping) serialField (by decide) (by decide)
    (by decide)
  ⟨h.1, h.2.1, by decide, by decide⟩

end pgdialect

namespace pgdialect

/-- C5, as the code has it: for a field whose tag has the `array` option or whose user type
ends with `[]`, after `onField` the encode and decode functions are the array appender and
the array scanner for the field's struct type when the discovered SQL type is not `HSTORE`
(whatever the auto-increment branch did), and the key-value appender and scanner when the
discovered SQL type is `HSTORE`: that branch runs last and writes the same two attributes. -/
theorem onField_array (fst : Field → String) (f : Field)
    (h : f.Tag.HasOption "array" = true ∨ strings.HasSuffix f.UserSQLType "[]" = true) :
    ((onField fst f).DiscoveredSQLType ≠ sqltype.HSTORE →
      (onField fst f).Append = AppenderFunc.arrayAppender f.StructField.Typ ∧
      (onField fst f).Scan = ScannerFunc.arrayScanner f.StructField.Typ) ∧
    ((onField fst f).DiscoveredSQLType = sqltype.HSTORE →
      (onField fst f).Append = AppenderFunc.hstoreAppender f.StructField.Typ ∧
      (onField fst f).Scan = ScannerFunc.hstoreScanner f.StructField.Typ) := by
  have hD : declaredArray f = true := by
    simp only [declaredArray, Bool.or_eq_true]
    exact h
  rw [onField_eq fst f]
  constructor
  · intro hd
    simp only at hd ⊢
    simp only [hd, hD, if_true, if_false, and_self]
  · intro hd
    simp only at hd ⊢
    simp only [hd, if_true, and_self]

/-- The `[]string` field of the examples gets the array appender and scanner. -/
theorem onField_array_witness :
    (arrayField.Tag.HasOption "array" = true ∨
      strings.HasSuffix arrayField.UserSQLType "[]" = true) ∧
    (onField (fieldSQLType exampleMapping) arrayField).DiscoveredSQLType ≠ sqltype.HSTORE ∧
    (onField (fieldSQLType exampleMapping) arrayField).Append
      = AppenderFunc.arrayAppender arrayField.StructField.Typ ∧
    (onField (fieldSQLType exampleMapping) arrayField).Scan
      = ScannerFunc.arrayScanner arrayField.StructField.Typ :=
  ⟨by decide, by decide,
    (onField_array (fieldSQLType exampleMapping) arrayField (by decide)).1 (by decide)⟩

/-- C5 as stated fails: the field tagged `type:HSTORE,array` has the `array` option, and
after `onField` its encode and decode functions are the key-value ones, not the array ones. -/
theorem onField_array_counterexample :
    hstoreArrayField.Tag.HasOption "array" = true ∧
    (onField (fieldSQLType exampleMapping) hstoreArrayField).Append
      ≠ AppenderFunc.arrayAppender hstoreArrayField.StructField.Typ ∧
    (onField (fieldSQLType exampleMapping) hstoreArrayField).Scan
      ≠ ScannerFunc.arrayScanner hstoreArrayField.StructField.Typ ∧
    (onField (fieldSQLType exampleMapping) hstoreArrayField).Append
      = AppenderFunc.hstoreAppender hstoreArrayField.StructField.Typ ∧
    (onField (fieldSQLType exampleMapping) hstoreArrayField).Scan
      = ScannerFunc.hstoreScanner hstoreArrayField.StructField.Typ := by
  decide

/-- C6: the discovered SQL type `onField` stores is the result of the type mapping; for a
field whose discovered SQL type is `HSTORE`, after `onField` the encode and decode functions
are the key-value appender and scanner for the field's struct type, whatever its tag options
and user type; for a field that is neither declared array (by option or by `[]` suffix) nor
of discovered type `HSTORE`, they are what they were. -/
theorem onField_hstore (fst : Field → String) (f : Field) :
    (onField fst f).DiscoveredSQLType = fst f ∧
    (fst f = sqltype.HSTORE →
      (onField fst f).DiscoveredSQLType = sqltype.HSTORE ∧
      (onField fst f).Append = AppenderFunc.hstoreAppender f.StructField.Typ ∧
      (onField fst f).Scan = ScannerFunc.hstoreScanner f.StructField.Typ) ∧
    (f.Tag.HasOption "array" = false ∧ strings.HasSuffix f.UserSQLType "[]" = false ∧
        fst f ≠ sqltype.HSTORE →
      (onField fst f).DiscoveredSQLType ≠ sqltype.HSTORE ∧
      (onField fst f).Append = f.Append ∧ (onField fst f).Scan = f.Scan) := by
  rw [onField_eq fst f]
  refine ⟨rfl, ?_, ?_⟩
  · intro hd
    simp only [hd, if_true, and_self]
  · rintro ⟨h1, h2, hd⟩
    have hD : declaredArray f = false := by
      simp only [declaredArray, h1, h2, Bool.or_self]
    simp only [hd, hD, if_false, Bool.false_eq_true, and_self, ne_eq, not_false_eq_true]

/-- C7: the field mutation is idempotent, given that the type mapping reads only attributes
`onField` does not write: applying `onField` twice yields the same descriptor as applying it
once, with the same discovered SQL type, create-table SQL type and encode/decode pair. -/
theorem onField_idempotent (fst : Field → String) (h : ReadsOnlyInputs fst) (f : Field) :
    onField fst (onField fst f) = onField fst f ∧
    (onField fst (onField fst f)).DiscoveredSQLType = (onField fst f).DiscoveredSQLType ∧
    (onField fst (onField fst f)).CreateTableSQLType = (onField fst f).CreateTableSQLType ∧
    (onField fst (onField fst f)).Append = (onField fst f).Append ∧
    (onField fst (onField fst f)).Scan = (onField fst f).Scan := by
  have e := onField_onField fst h f
  exact ⟨e, by rw [e], by rw [e], by rw [e], by rw [e]⟩

/-- The rule run twice on the big-serial key of the examples. -/
theorem onField_idempotent_witness :
    ReadsOnlyInputs (fieldSQLType exampleMapping) ∧
    onField (fieldSQLType exampleMapping) (onField (fieldSQLType exampleMapping) serialField)
      = onField (fieldSQLType exampleMapping) serialField ∧
    (onField (fieldSQLType exampleMapping)
      (onField (fieldSQLType exampleMapping) serialField)).CreateTableSQLType = "BIGSERIAL" :=
  ⟨ReadsOnlyInputs_fieldSQLType exampleMapping,
    (onField_idempotent (fieldSQLType exampleMapping)
      (ReadsOnlyInputs_fieldSQLType exampleMapping) serialField).1,
    by decide⟩

end pgdialect

/-! ## Tables and the adapter's configuration -/

namespace pgdialect

/-- The loop of `OnTable` over any list of entries: an address holds what the rule gives
when it is run once for each entry that points to the address. -/
theorem foldl_onField_iterate (fst : Field → String) :
    ∀ (entries : List (String × Nat)) (heap : Heap) (p : Nat),
      entries.foldl (fun h e => h.set e.2 (onField fst (h e.2))) heap p =
        (onField fst)^[(entries.map Prod.snd).count p] (heap p) := by
  intro entries
  induction entries with
  | nil => intro heap p; rfl
  | cons e es ih =>
    intro heap p
    rw [List.foldl_cons, ih, List.map_cons]
    by_cases hp : p = e.2
    · subst hp
      rw [List.count_cons_self, Function.iterate_succ_apply]
      simp [Heap.set]
    · have hne : (e.2 == p) = false := by
        simp only [beq_eq_false_iff_ne, ne_eq]
        exact fun h => hp h.symm
      rw [List.count_cons, hne]
      simp [Heap.set, hp]

/-- An idempotent function run one or more times is the function run once. -/
theorem iterate_succ_of_idem (F : Field → Field) (hid : ∀ x, F (F x) = F x) (x : Field) :
    ∀ n : Nat, F^[n + 1] x = F x := by
  intro n
  induction n with
  | zero => rfl
  | succ n ih => rw [Function.iterate_succ_apply', ih, hid]

/-- C10, as the code has it: `OnTable` applies the field-resolution rule to the descriptors
in the table's `FieldMap` and to nothing else, once for each name that refers to a
descriptor. Afterwards a descriptor of the table is in exactly the state `onField` gives it
when the type mapping reads only attributes `onField` does not write, or when no two names
refer to the same descriptor; a descriptor not in the table is unchanged; and the resulting
memory is the same for every order in which the entries are visited, also when two names
refer to the same descriptor. -/
theorem OnTable_spec (fst : Field → String) (table : Table) (heap : Heap) :
    (∀ p, OnTable fst table heap p
        = (onField fst)^[(table.FieldMap.map Prod.snd).count p] (heap p)) ∧
    (ReadsOnlyInputs fst ∨ (table.FieldMap.map Prod.snd).Nodup →
      ∀ p, p ∈ table.FieldMap.map Prod.snd →
        OnTable fst table heap p = onField fst (heap p)) ∧
    (∀ p, p ∉ table.FieldMap.map Prod.snd → OnTable fst table heap p = heap p) ∧
    (∀ visited : Table, visited.FieldMap.Perm table.FieldMap →
      OnTable fst visited heap = OnTable fst table heap) := by
  have hit := foldl_onField_iterate fst
  refine ⟨?_, ?_, ?_, ?_⟩
  · intro p
    exact hit table.FieldMap heap p
  · intro h p hp
    simp only [OnTable]
    rw [hit]
    rcases h with h | h
    · obtain ⟨n, hn⟩ : ∃ n, (table.FieldMap.map Prod.snd).count p = n + 1 :=
        ⟨(table.FieldMap.map Prod.snd).count p - 1, by
          have := List.count_pos_iff.mpr hp
          omega⟩
      rw [hn, iterate_succ_of_idem (onField fst) (onField_onField fst h)]
    · rw [List.count_eq_one_of_mem h hp]
      rfl
  · intro p hp
    simp only [OnTable]
    rw [hit, List.count_eq_zero_of_not_mem hp]
    rfl
  · intro visited hperm
    funext p
    simp only [OnTable]
    rw [hit, hit, (hperm.map Prod.snd).count_eq p]

/-- The table with two names for one descriptor, under the type mapping of the spec: the
descriptor ends in the state `onField` gives it, the other addresses are untouched. -/
theorem OnTable_spec_witness :
    ReadsOnlyInputs (fieldSQLType exampleMapping) ∧
    (0 : Nat) ∈ aliasTable.FieldMap.map Prod.snd ∧
    OnTable (fieldSQLType exampleMapping) aliasTable aliasHeap 0
      = onField (fieldSQLType exampleMapping) (aliasHeap 0) ∧
    OnTable (fieldSQLType exampleMapping) aliasTable aliasHeap 1 = aliasHeap 1 :=
  ⟨ReadsOnlyInputs_fieldSQLType exampleMapping, by decide,
    (OnTable_spec (fieldSQLType exampleMapping) aliasTable aliasHeap).2.1
      (Or.inl (ReadsOnlyInputs_fieldSQLType exampleMapping)) 0 (by decide),
    (OnTable_spec (fieldSQLType exampleMapping) aliasTable aliasHeap).2.2.1 1 (by decide)⟩

/-- C10 as stated fails: the `net.IP` descriptor is in the table under two names, and under a
type mapping that reads `DiscoveredSQLType` the loop leaves it with discovered type `INET`,
while `onField` gives it `BYTEA`. -/
theorem OnTable_spec_counterexample :
    (0 : Nat) ∈ aliasTable.FieldMap.map Prod.snd ∧
    OnTable discoveredReadingMapping aliasTable aliasHeap 0
      ≠ onField discoveredReadingMapping (aliasHeap 0) ∧
    (onField discoveredReadingMapping (aliasHeap 0)).DiscoveredSQLType = "BYTEA" ∧
    (OnTable discoveredReadingMapping aliasTable aliasHeap 0).DiscoveredSQLType = "INET" := by
  decide

theorem foldl_WithPrepared_features (ps : List Bool) : ∀ d : Dialect,
    ((ps.map WithPrepared).foldl (fun d opt => opt.apply d) d).features = d.features := by
  induction ps with
  | nil => intro d; rfl
  | cons p ps ih => intro d; simp only [List.map_cons, List.foldl_cons]; rw [ih]; rfl

theorem foldl_WithPrepared_prepared (ps : List Bool) : ∀ d : Dialect,
    ((ps.map WithPrepared).foldl (fun d opt => opt.apply d) d).prepared
      = (ps.getLast?).getD d.prepared := by
  induction ps with
  | nil => intro d; rfl
  | cons p ps ih =>
    intro d
    simp only [List.map_cons, List.foldl_cons]
    rw [ih]
    cases ps with
    | nil => rfl
    | cons q qs =>
      rw [List.getLast?_cons_cons, List.getLast?_eq_getLast _ (List.cons_ne_nil q qs)]
      rfl

/-- No method call changes the adapter. -/
theorem run_dialect (fst : Field → String) (calls : List Call) : ∀ w : World,
    (World.run fst w calls).dialect = w.dialect := by
  induction calls with
  | nil => intro w; rfl
  | cons c cs ih =>
    intro w
    simp only [World.run, List.foldl_cons] at ih ⊢
    rw [ih]
    cases c <;> rfl

theorem or_and_right_self (x y : Nat) : (x ||| y) &&& y = y := by
  apply Nat.eq_of_testBit_eq
  intro i
  simp only [Nat.testBit_and, Nat.testBit_or]
  cases x.testBit i <;> cases y.testBit i <;> rfl

theorem or_and_of_and (x y f : Nat) (h : x &&& f = f) : (x ||| y) &&& f = f := by
  apply Nat.eq_of_testBit_eq
  intro i
  have hi := congrArg (fun n => n.testBit i) h
  simp only [Nat.testBit_and] at hi
  simp only [Nat.testBit_and, Nat.testBit_or]
  cases hx : x.testBit i <;> cases hy : y.testBit i <;> cases hf : f.testBit i <;>
    simp_all

/-- Every member of a list is contained in the bitwise OR of the list. -/
theorem foldl_or_and_mem (l : List Nat) : ∀ (acc f : Nat),
    (f ∈ l ∨ acc &&& f = f) → l.foldl (fun a b => a ||| b) acc &&& f = f := by
  induction l with
  | nil =>
    intro acc f h
    rcases h with h | h
    · simp at h
    · exact h
  | cons a l ih =>
    intro acc f h
    rw [List.foldl_cons]
    apply ih
    rcases h with h | h
    · rcases List.mem_cons.mp h with rfl | h
      · exact Or.inr (or_and_right_self acc f)
      · exact Or.inl h
    · exact Or.inr (or_and_of_and acc a f h)

theorem New_features (feature : feature.Vocabulary) (ps : List Bool) :
    (New feature (ps.map WithPrepared)).features
      = (supportedFeatures feature).foldl (fun a b => a ||| b) 0 := by
  simp only [New, foldl_WithPrepared_features, supportedFeatures, List.foldl_cons,
    List.foldl_nil, Nat.zero_or]

/-- C8: for every list of options, `Features()` of `New(opts...)` is the bitwise OR of the
seventeen listed capabilities: `Features() AND f = f` for each listed `f`; the value is the
same for every option list, and no sequence of method calls on the adapter changes it. -/
theorem Features_New (feature : feature.Vocabulary) (ps : List Bool) :
    Features (New feature (ps.map WithPrepared))
      = (supportedFeatures feature).foldl (fun a b => a ||| b) 0 ∧
    (supportedFeatures feature).length = 17 ∧
    (∀ f ∈ supportedFeatures feature,
      Features (New feature (ps.map WithPrepared)) &&& f = f) ∧
    Features (New feature (ps.map WithPrepared)) = Features (New feature []) ∧
    (∀ (fst : Field → String) (heap : Heap) (calls : List Call),
      Features (World.run fst
          { dialect := New feature (ps.map WithPrepared), heap := heap } calls).dialect
        = Features (New feature (ps.map WithPrepared))) := by
  refine ⟨New_features feature ps, rfl, ?_, ?_, ?_⟩
  · intro f hf
    simp only [Features, New_features]
    exact foldl_or_and_mem _ 0 f (Or.inl hf)
  · have h0 := New_features feature []
    simp only [List.map_nil] at h0
    simp only [Features, New_features, h0]
  · intro fst heap calls
    rw [run_dialect]

/-- C9: `Prepared()` reports what was configured at construction: `false` without options,
`p` after `WithPrepared(p)`, the value of the last `WithPrepared` when there are several,
and no sequence of method calls on the adapter changes it. -/
theorem Prepared_New (feature : feature.Vocabulary) (ps : List Bool) (p : Bool) :
    Prepared (New feature []) = false ∧
    Prepared (New feature [WithPrepared p]) = p ∧
    Prepared (New feature ((ps ++ [p]).map WithPrepared)) = p ∧
    Prepared (New feature (ps.map WithPrepared)) = (ps.getLast?).getD false ∧
    (∀ (fst : Field → String) (heap : Heap) (calls : List Call),
      Prepared (World.run fst
          { dialect := New feature (ps.map WithPrepared), heap := heap } calls).dialect
        = Prepared (New feature (ps.map WithPrepared))) := by
  refine ⟨rfl, rfl, ?_, ?_, ?_⟩
  · simp only [Prepared, New, foldl_WithPrepared_prepared, List.getLast?_append,
      List.getLast?_singleton]
    rfl
  · simp only [Prepared, New, foldl_WithPrepared_prepared]
  · intro fst heap calls
    rw [run_dialect]

end pgdialect
